import Mathlib

/-!
Verification of the single-room chat server: domain value objects,
the `Room` aggregate, the in-memory repository (room + connected-clients
registry), and the three use cases (connect, disconnect, send).

The Rust code is embedded shallowly: `&mut self` repository methods become
state-passing functions returning `Except e α × RepoState`; `Vec` becomes
`List` in push order; the `HashMap<String, ClientInfo>` registry becomes an
association list whose `insert` replaces any existing binding for the key
(claims about the registry are set-of-keys claims, so the bucket order of
the hash map is irrelevant); the tokio channel `sender` field is dropped
(it carries no state the claims mention); `usize` becomes `Nat`; the `i64`
millisecond timestamps become `Int` (they are never arithmetically
combined); Rust `String::len` (UTF-8 bytes = code units) becomes
`String.utf8ByteSize`.
-/

namespace Chat

/-! ## Domain layer: value objects (src/domain/value_object.rs, error.rs) -/

/-- `ValueObjectError` from src/domain/error.rs. -/
inductive ValueObjectError where
  | ClientIdEmpty
  | ClientIdTooLong (max actual : Nat)
  | RoomIdEmpty
  | RoomIdInvalidFormat (s : String)
  | MessageContentEmpty
  | MessageContentTooLong (max actual : Nat)
deriving DecidableEq

/-- `ClientId` newtype over a validated string. -/
structure ClientId where
  id : String
deriving DecidableEq

/-- `ClientId::new`: empty check, then length (UTF-8 bytes) at most 100. -/
def ClientId.new (id : String) : Except ValueObjectError ClientId :=
  if id = "" then .error .ClientIdEmpty
  else if id.utf8ByteSize > 100 then
    .error (.ClientIdTooLong 100 id.utf8ByteSize)
  else .ok ⟨id⟩

/-- `RoomId` newtype over a validated string. -/
structure RoomId where
  id : String
deriving DecidableEq

/-- `MessageContent` newtype over a validated string. -/
structure MessageContent where
  content : String
deriving DecidableEq

/-- `MessageContent::new`: empty check, then length (UTF-8 bytes) at most 10000. -/
def MessageContent.new (content : String) : Except ValueObjectError MessageContent :=
  if content = "" then .error .MessageContentEmpty
  else if content.utf8ByteSize > 10000 then
    .error (.MessageContentTooLong 10000 content.utf8ByteSize)
  else .ok ⟨content⟩

/-- `Timestamp(i64)`: a plain integer, never combined arithmetically. -/
abbrev Timestamp := Int

/-! ## Domain layer: entities (packages/server/src/domain/entity.rs) -/

/-- `RoomError` from src/domain/error.rs. -/
inductive RoomError where
  | CapacityExceeded (capacity current : Nat)
  | MessageCapacityExceeded (capacity current : Nat)
deriving DecidableEq

/-- `Participant { id, connected_at }`. -/
structure Participant where
  id : ClientId
  connected_at : Timestamp
deriving DecidableEq

/-- `ChatMessage { from, content, timestamp }` (`from` is a Lean keyword,
so the field is named `fromClient`). -/
structure ChatMessage where
  fromClient : ClientId
  content : MessageContent
  timestamp : Timestamp
deriving DecidableEq

/-- Default maximum number of participants allowed in a room. -/
def DEFAULT_PARTICIPANT_CAPACITY : Nat := 10

/-- Default maximum number of messages allowed in a room. -/
def DEFAULT_MESSAGE_CAPACITY : Nat := 100

/-- The `Room` aggregate: participants and messages in insertion order. -/
structure Room where
  id : RoomId
  participants : List Participant
  messages : List ChatMessage
  created_at : Timestamp
  participant_capacity : Nat
  message_capacity : Nat
deriving DecidableEq

/-- `Room::new`: empty room with default capacities. -/
def Room.new (id : RoomId) (created_at : Timestamp) : Room :=
  { id := id, participants := [], messages := [], created_at := created_at
    participant_capacity := DEFAULT_PARTICIPANT_CAPACITY
    message_capacity := DEFAULT_MESSAGE_CAPACITY }

/-- `Room::with_capacity`: empty room with custom capacities. -/
def Room.with_capacity (id : RoomId) (created_at : Timestamp)
    (participant_capacity message_capacity : Nat) : Room :=
  { id := id, participants := [], messages := [], created_at := created_at
    participant_capacity := participant_capacity
    message_capacity := message_capacity }

/-- `Room::add_participant`: rejects when `participants.len() >= participant_capacity`,
otherwise pushes at the end. -/
def Room.add_participant (r : Room) (participant : Participant) : Except RoomError Room :=
  if r.participants.length ≥ r.participant_capacity then
    .error (.CapacityExceeded r.participant_capacity r.participants.length)
  else
    .ok { r with participants := r.participants ++ [participant] }

/-- `Room::remove_participant`: `retain(|p| &p.id != participant_id)`. -/
def Room.remove_participant (r : Room) (participant_id : ClientId) : Room :=
  { r with participants := r.participants.filter (fun p => decide (p.id ≠ participant_id)) }

/-- `Room::add_message`: rejects when `messages.len() >= message_capacity`,
otherwise pushes at the end. -/
def Room.add_message (r : Room) (message : ChatMessage) : Except RoomError Room :=
  if r.messages.length ≥ r.message_capacity then
    .error (.MessageCapacityExceeded r.message_capacity r.messages.length)
  else
    .ok { r with messages := r.messages ++ [message] }

/-- `Room::get_participant`: first participant with the given id, if any. -/
def Room.get_participant (r : Room) (participant_id : ClientId) : Option Participant :=
  r.participants.find? (fun p => decide (p.id = participant_id))

/-! ## Infrastructure layer: in-memory repository
(src/infrastructure/repository/inmemory/room.rs, ui/state.rs) -/

/-- `RepositoryError` as used by the in-memory repository. -/
inductive RepositoryError where
  | ParticipantNotFound (id : String)
  | ClientInfoNotFound (id : String)
  | RoomNotFound
deriving DecidableEq

/-- `ClientInfo` without the tokio `sender` channel: only `connected_at`
is observable state. -/
structure ClientInfo where
  connected_at : Timestamp
deriving DecidableEq

/-- The shared state behind `InMemoryRoomRepository`: the
`connected_clients: HashMap<String, ClientInfo>` registry (modelled as an
association list) together with the `Room`. -/
structure RepoState where
  connected_clients : List (String × ClientInfo)
  room : Room
deriving DecidableEq

/-- `HashMap::insert`: replace any existing binding for the key. -/
def insertClient (l : List (String × ClientInfo)) (k : String) (v : ClientInfo) :
    List (String × ClientInfo) :=
  l.filter (fun kv => decide (kv.1 ≠ k)) ++ [(k, v)]

/-- `get_all_connected_client_ids`: the key set of the registry. -/
def RepoState.get_all_connected_client_ids (s : RepoState) : List String :=
  s.connected_clients.map (fun kv => kv.1)

/-- `InMemoryRoomRepository::add_participant`: validate the id, add to the
room first (capacity check), and only then register in `connected_clients`. -/
def RepoState.add_participant (s : RepoState) (client_id : String)
    (timestamp : Timestamp) : Except RepositoryError Unit × RepoState :=
  match ClientId.new client_id with
  | .error _ => (.error (.ParticipantNotFound client_id), s)
  | .ok cid =>
    match s.room.add_participant ⟨cid, timestamp⟩ with
    | .error _ => (.error (.ParticipantNotFound client_id), s)
    | .ok room2 =>
      (.ok (), { s with room := room2
                        connected_clients := insertClient s.connected_clients client_id ⟨timestamp⟩ })

/-- `InMemoryRoomRepository::remove_participant`: remove from
`connected_clients` (error if absent), then re-validate the id and remove
from the room. The registry removal precedes the validation, exactly as in
the source. -/
def RepoState.remove_participant (s : RepoState) (client_id : String) :
    Except RepositoryError Unit × RepoState :=
  if client_id ∈ s.get_all_connected_client_ids then
    let s1 : RepoState :=
      { s with connected_clients :=
          s.connected_clients.filter (fun kv => decide (kv.1 ≠ client_id)) }
    match ClientId.new client_id with
    | .error _ => (.error (.ParticipantNotFound client_id), s1)
    | .ok cid => (.ok (), { s1 with room := s1.room.remove_participant cid })
  else
    (.error (.ClientInfoNotFound client_id), s)

/-- `InMemoryRoomRepository::add_message`: append to the room history. -/
def RepoState.add_message (s : RepoState) (from_client_id : ClientId)
    (content : MessageContent) (timestamp : Timestamp) :
    Except RepositoryError Unit × RepoState :=
  match s.room.add_message ⟨from_client_id, content, timestamp⟩ with
  | .error _ => (.error .RoomNotFound, s)
  | .ok room2 => (.ok (), { s with room := room2 })

/-- `count_connected_clients`. -/
def RepoState.count_connected_clients (s : RepoState) : Nat :=
  s.connected_clients.length

/-- `get_participants`. -/
def RepoState.get_participants (s : RepoState) : List Participant :=
  s.room.participants

/-! ## UseCase layer (src/usecase/*.rs) -/

/-- `ConnectError` as used by `ConnectParticipantUseCase`. -/
inductive ConnectError where
  | DuplicateClientId (id : String)
  | RoomCapacityExceeded
deriving DecidableEq

/-- `SendMessageError` as used by `SendMessageUseCase`. -/
inductive SendMessageError where
  | MessageCapacityExceeded
deriving DecidableEq

/-- `ConnectParticipantUseCase::execute`: duplicate pre-check against the
registry key set, then repository `add_participant`; any repository error
is reported as `RoomCapacityExceeded`. -/
def connectExecute (s : RepoState) (client_id : ClientId) (connected_at : Timestamp) :
    Except ConnectError Unit × RepoState :=
  if client_id.id ∈ s.get_all_connected_client_ids then
    (.error (.DuplicateClientId client_id.id), s)
  else
    match s.add_participant client_id.id connected_at with
    | (.error _, s2) => (.error .RoomCapacityExceeded, s2)
    | (.ok _, s2) => (.ok (), s2)

/-- `DisconnectParticipantUseCase::execute`: compute the notify targets
(every registered id except the one disconnecting), then remove the
participant; an error of the repository becomes `Err(())`. -/
def disconnectExecute (s : RepoState) (client_id : ClientId) :
    Except Unit (List String) × RepoState :=
  let notify_targets :=
    s.get_all_connected_client_ids.filter (fun i => decide (i ≠ client_id.id))
  match s.remove_participant client_id.id with
  | (.error _, s2) => (.error (), s2)
  | (.ok _, s2) => (.ok notify_targets, s2)

/-- `SendMessageUseCase::execute`: append the message to the room, then
return every registered id except the sender. -/
def sendExecute (s : RepoState) (from_client_id : ClientId)
    (content : MessageContent) (timestamp : Timestamp) :
    Except SendMessageError (List String) × RepoState :=
  match s.add_message from_client_id content timestamp with
  | (.error _, s2) => (.error .MessageCapacityExceeded, s2)
  | (.ok _, s2) =>
    let broadcast_targets :=
      s2.get_all_connected_client_ids.filter (fun i => decide (i ≠ from_client_id.id))
    (.ok broadcast_targets, s2)

/-- Display form of a participant, as produced by
`ConnectParticipantUseCase::build_participant_list`. -/
structure ParticipantInfo where
  client_id : String
  connected_at : Timestamp
deriving DecidableEq

/-- Lexicographic less-or-equal on character lists: the model of Rust's
`String::cmp` (UTF-8 byte order coincides with code-point order). -/
def charsLe : List Char → List Char → Bool
  | [], _ => true
  | _ :: _, [] => false
  | a :: as, b :: bs =>
    if a < b then true
    else if b < a then false
    else charsLe as bs

theorem charsLe_total : ∀ xs ys : List Char, charsLe xs ys = true ∨ charsLe ys xs = true
  | [], _ => by left; rfl
  | _ :: _, [] => by right; rfl
  | a :: as, b :: bs => by
    by_cases hab : a < b
    · left; simp [charsLe, hab]
    · by_cases hba : b < a
      · right; simp [charsLe, hba]
      · have : a = b := le_antisymm (not_lt.mp hba) (not_lt.mp hab)
        subst this
        rcases charsLe_total as bs with h | h
        · left; simpa [charsLe, hab, hba] using h
        · right; simpa [charsLe, hab, hba] using h

theorem charsLe_trans : ∀ xs ys zs : List Char,
    charsLe xs ys = true → charsLe ys zs = true → charsLe xs zs = true
  | [], _, _, _, _ => rfl
  | _ :: _, [], _, h, _ => by simp [charsLe] at h
  | _ :: _, _ :: _, [], _, h => by simp [charsLe] at h
  | a :: as, b :: bs, c :: cs, h1, h2 => by
    simp only [charsLe] at h1 h2 ⊢
    by_cases hab : a < b
    · by_cases hbc : b < c
      · simp [lt_trans hab hbc]
      · by_cases hcb : c < b
        · simp [hbc, hcb] at h2
        · have hbc2 : b = c := le_antisymm (not_lt.mp hcb) (not_lt.mp hbc)
          subst hbc2
          simp [hab]
    · by_cases hba : b < a
      · simp [hab, hba] at h1
      · have hab2 : a = b := le_antisymm (not_lt.mp hba) (not_lt.mp hab)
        subst hab2
        by_cases hac : a < c
        · simp [hac]
        · by_cases hca : c < a
          · simp [hac, hca] at h2
          · simp only [if_neg hac, if_neg hca] at h2 ⊢
            simp only [if_neg hab, if_neg hba] at h1
            exact charsLe_trans as bs cs h1 h2

/-- The ordering used by `sort_by(|a, b| a.client_id.cmp(&b.client_id))`. -/
def infoLe (a b : ParticipantInfo) : Prop :=
  charsLe a.client_id.data b.client_id.data = true

instance : DecidableRel infoLe := fun a b =>
  inferInstanceAs (Decidable (charsLe a.client_id.data b.client_id.data = true))

instance : IsTotal ParticipantInfo infoLe :=
  ⟨fun a b => charsLe_total a.client_id.data b.client_id.data⟩

instance : IsTrans ParticipantInfo infoLe :=
  ⟨fun _ _ _ h1 h2 => charsLe_trans _ _ _ h1 h2⟩

/-- `ConnectParticipantUseCase::build_participant_list`: map each current
participant to its display form and sort by `client_id` ascending
(a stable sort, modelled by insertion sort). -/
def build_participant_list (s : RepoState) : List ParticipantInfo :=
  List.insertionSort infoLe
    (s.get_participants.map (fun p => ⟨p.id.id, p.connected_at⟩))

/-! ## Operation sequences -/

/-- One externally driven use-case invocation. -/
inductive Op where
  | connect (client_id : ClientId) (at_ : Timestamp)
  | disconnect (client_id : ClientId)
  | send (client_id : ClientId) (content : MessageContent) (at_ : Timestamp)
deriving DecidableEq

/-- The state after one use-case invocation (the result value is dropped;
a failed operation leaves exactly the state the source leaves). -/
def applyOp (s : RepoState) : Op → RepoState
  | .connect cid ts => (connectExecute s cid ts).2
  | .disconnect cid => (disconnectExecute s cid).2
  | .send cid content ts => (sendExecute s cid content ts).2

/-- Run a sequence of operations from a state. -/
def run (s : RepoState) : List Op → RepoState
  | [] => s
  | op :: ops => run (applyOp s op) ops

/-- The process-start state: empty registry, empty room with fixed capacities. -/
def initState (rid : RoomId) (created_at : Timestamp)
    (participant_capacity message_capacity : Nat) : RepoState :=
  { connected_clients := []
    room := Room.with_capacity rid created_at participant_capacity message_capacity }

/-- The participant id strings of the room, in insertion order. -/
def participantIds (s : RepoState) : List String :=
  s.room.participants.map (fun p => p.id.id)

/-- A registry key that round-trips through `ClientId::new` — every key the
use cases ever insert does, because they validated it on the way in. -/
def ValidKey (k : String) : Prop := ClientId.new k = .ok ⟨k⟩

/-- The state invariant of the coordinator: capacities respected, participant
ids pairwise distinct, registry key set equal to the participant id set, and
every registry key valid. -/
def Inv (s : RepoState) : Prop :=
  s.room.participants.length ≤ s.room.participant_capacity ∧
  s.room.messages.length ≤ s.room.message_capacity ∧
  (participantIds s).Nodup ∧
  (∀ x, x ∈ s.get_all_connected_client_ids ↔ x ∈ participantIds s) ∧
  (∀ k ∈ s.get_all_connected_client_ids, ValidKey k)

/-! ## Concrete fixtures for witness checks -/

def wRoomId : RoomId := ⟨"default"⟩

/-- Initial state with the default capacities. -/
def wInit : RepoState := initState wRoomId 0 10 100

/-- State with alice, bob, charlie connected (in that order). -/
def sABC : RepoState :=
  run wInit [.connect ⟨"alice"⟩ 1, .connect ⟨"bob"⟩ 2, .connect ⟨"charlie"⟩ 3]

/-- A room at its participant capacity of 2. -/
def roomTwo : Room :=
  { id := wRoomId, participants := [⟨⟨"alice"⟩, 1⟩, ⟨⟨"bob"⟩, 2⟩], messages := []
    created_at := 0, participant_capacity := 2, message_capacity := 100 }

/-- A room at its message capacity of 2. -/
def roomMsgTwo : Room :=
  { id := wRoomId, participants := []
    messages := [⟨⟨"alice"⟩, ⟨"m1"⟩, 1⟩, ⟨⟨"alice"⟩, ⟨"m2"⟩, 2⟩]
    created_at := 0, participant_capacity := 10, message_capacity := 2 }

/-- A 101-byte candidate client id. -/
def longA : String :=
  "aaaaaaaaaaaaaaaaaaaaaaaaaaaaaaaaaaaaaaaaaaaaaaaaaaaaaaaaaaaaaaaaaaaaaaaaaaaaaaaaaaaaaaaaaaaaaaaaaaaaa"

/-- A room holding one participant, with spare capacity. -/
def roomOne : Room :=
  { id := wRoomId, participants := [⟨⟨"alice"⟩, 1⟩], messages := []
    created_at := 0, participant_capacity := 2, message_capacity := 100 }

/-! ## Helper lemmas -/

/-- `ClientId::new` only ever wraps the very string it was given. -/
theorem ClientId.new_ok_eq {x : String} {c : ClientId} (h : ClientId.new x = .ok c) :
    c = ⟨x⟩ := by
  simp only [ClientId.new] at h
  split at h
  · cases h
  · split at h
    · cases h
    · exact (Except.ok.inj h).symm

theorem ClientId.id_inj {a b : ClientId} : a.id = b.id ↔ a = b := by
  constructor
  · intro h; cases a; cases b; simpa using h
  · intro h; rw [h]

/-- Key projection commutes with filtering a key out. -/
theorem map_fst_filter_ne (l : List (String × ClientInfo)) (k : String) :
    (l.filter (fun kv => decide (kv.1 ≠ k))).map (fun kv => kv.1)
      = (l.map (fun kv => kv.1)).filter (fun i => decide (i ≠ k)) := by
  rw [List.filter_map]; rfl

theorem mem_map_fst_filter_ne {l : List (String × ClientInfo)} {k x : String} :
    x ∈ (l.filter (fun kv => decide (kv.1 ≠ k))).map (fun kv => kv.1) ↔
      (x ∈ l.map (fun kv => kv.1) ∧ x ≠ k) := by
  rw [map_fst_filter_ne]; simp [List.mem_filter]

theorem mem_keys_insertClient {l : List (String × ClientInfo)} {k x : String}
    {v : ClientInfo} :
    x ∈ (insertClient l k v).map (fun kv => kv.1) ↔
      ((x ∈ l.map (fun kv => kv.1) ∧ x ≠ k) ∨ x = k) := by
  simp only [insertClient, List.map_append, List.mem_append, mem_map_fst_filter_ne]
  simp

/-- Participant-id projection commutes with removing one id. -/
theorem pids_filter_eq (ps : List Participant) (cid : ClientId) :
    (ps.filter (fun p => decide (p.id ≠ cid))).map (fun p => p.id.id)
      = (ps.map (fun p => p.id.id)).filter (fun i => decide (i ≠ cid.id)) := by
  have hsame : ps.filter (fun p => decide (p.id ≠ cid))
      = ps.filter (fun p => decide (p.id.id ≠ cid.id)) :=
    List.filter_congr fun p _ =>
      decide_eq_decide.mpr (not_congr ClientId.id_inj).symm
  rw [hsame, List.filter_map]; rfl

theorem mem_pids_filter {ps : List Participant} {cid : ClientId} {x : String} :
    x ∈ (ps.filter (fun p => decide (p.id ≠ cid))).map (fun p => p.id.id) ↔
      (x ∈ ps.map (fun p => p.id.id) ∧ x ≠ cid.id) := by
  rw [pids_filter_eq]; simp [List.mem_filter]

/-- No use-case invocation ever removes or reorders stored messages:
the message history only ever grows at the end. -/
theorem messages_applyOp (s : RepoState) (op : Op) :
    ∃ t, (applyOp s op).room.messages = s.room.messages ++ t := by
  cases op with
  | connect cid ts =>
    refine ⟨[], ?_⟩
    by_cases hdup : cid.id ∈ s.get_all_connected_client_ids
    · simp [applyOp, connectExecute, hdup]
    · simp only [applyOp, connectExecute, if_neg hdup]
      cases hnew : ClientId.new cid.id with
      | error e => simp [RepoState.add_participant, hnew]
      | ok c =>
        by_cases hcap : s.room.participants.length ≥ s.room.participant_capacity
        · simp [RepoState.add_participant, hnew, Room.add_participant, hcap]
        · simp [RepoState.add_participant, hnew, Room.add_participant, hcap]
  | disconnect cid =>
    refine ⟨[], ?_⟩
    by_cases hmem : cid.id ∈ s.get_all_connected_client_ids
    · simp only [applyOp, disconnectExecute, RepoState.remove_participant, if_pos hmem]
      cases hnew : ClientId.new cid.id with
      | error e => simp [hnew]
      | ok c => simp [hnew, Room.remove_participant]
    · simp [applyOp, disconnectExecute, RepoState.remove_participant, hmem]
  | send cid content ts =>
    by_cases hcap : s.room.messages.length ≥ s.room.message_capacity
    · exact ⟨[], by simp [applyOp, sendExecute, RepoState.add_message, Room.add_message, hcap]⟩
    · exact ⟨[⟨cid, content, ts⟩],
        by simp [applyOp, sendExecute, RepoState.add_message, Room.add_message, hcap]⟩

/-! ## Claim theorems -/

/-- C3: `Room::add_participant` fails with
`CapacityExceeded{capacity: participant_capacity, current: len(participants)}`
when the participant count has reached the capacity (leaving the sequence
unchanged — the result carries the untouched room only on success), and
below capacity it succeeds, appending the participant at the end. -/
theorem claim3_add_participant_capacity (r : Room) (p : Participant) :
    (r.participants.length = r.participant_capacity →
      r.add_participant p =
        .error (.CapacityExceeded r.participant_capacity r.participants.length)) ∧
    (r.participants.length < r.participant_capacity →
      r.add_participant p = .ok { r with participants := r.participants ++ [p] }) := by
  constructor
  · intro h
    simp [Room.add_participant, h]
  · intro h
    simp [Room.add_participant, not_le.mpr h]

/-- Witness for C3: with capacity 2 and two participants present, a third
`add_participant` returns `CapacityExceeded{capacity: 2, current: 2}`; with
spare capacity the participant is appended. -/
theorem claim3_witness :
    roomTwo.add_participant ⟨⟨"charlie"⟩, 3⟩ = .error (.CapacityExceeded 2 2) ∧
    roomOne.add_participant ⟨⟨"bob"⟩, 2⟩ =
      .ok { roomOne with participants := roomOne.participants ++ [⟨⟨"bob"⟩, 2⟩] } :=
  ⟨(claim3_add_participant_capacity roomTwo ⟨⟨"charlie"⟩, 3⟩).1 rfl,
   (claim3_add_participant_capacity roomOne ⟨⟨"bob"⟩, 2⟩).2 (by decide)⟩

/-- C4: `Room::add_message` fails with
`MessageCapacityExceeded{capacity: message_capacity, current: len(messages)}`
at the ceiling (history unchanged), appends at the end when below capacity,
and no use-case operation ever removes or reorders stored messages. -/
theorem claim4_add_message_capacity (r : Room) (m : ChatMessage) :
    (r.messages.length = r.message_capacity →
      r.add_message m =
        .error (.MessageCapacityExceeded r.message_capacity r.messages.length)) ∧
    (r.messages.length < r.message_capacity →
      r.add_message m = .ok { r with messages := r.messages ++ [m] }) ∧
    (∀ (s : RepoState) (op : Op),
      ∃ t, (applyOp s op).room.messages = s.room.messages ++ t) := by
  refine ⟨?_, ?_, messages_applyOp⟩
  · intro h
    simp [Room.add_message, h]
  · intro h
    simp [Room.add_message, not_le.mpr h]

/-- Witness for C4: with message capacity 2 and two stored messages, a third
`add_message` returns `MessageCapacityExceeded{capacity: 2, current: 2}`;
below capacity the message is appended. -/
theorem claim4_witness :
    roomMsgTwo.add_message ⟨⟨"charlie"⟩, ⟨"m3"⟩, 3⟩ =
      .error (.MessageCapacityExceeded 2 2) ∧
    roomOne.add_message ⟨⟨"alice"⟩, ⟨"hey"⟩, 9⟩ =
      .ok { roomOne with messages := roomOne.messages ++ [⟨⟨"alice"⟩, ⟨"hey"⟩, 9⟩] } :=
  ⟨(claim4_add_message_capacity roomMsgTwo ⟨⟨"charlie"⟩, ⟨"m3"⟩, 3⟩).1 rfl,
   (claim4_add_message_capacity roomOne ⟨⟨"alice"⟩, ⟨"hey"⟩, 9⟩).2.1 (by decide)⟩

/-- C9 (implicit): the `Room` aggregate performs no identity-uniqueness
check — with free capacity, adding a participant whose id already occurs
succeeds and the id then occurs at least twice; distinctness is enforced
only by the use case's duplicate pre-check against the registry. -/
theorem claim9_room_allows_duplicate_ids :
    (∀ (r : Room) (p q : Participant),
      r.participants.length < r.participant_capacity →
      q ∈ r.participants → p.id = q.id →
      ∃ r2, r.add_participant p = .ok r2 ∧
        2 ≤ (r2.participants.map (fun x => x.id)).count p.id) ∧
    (∀ (s : RepoState) (cid : ClientId) (ts : Timestamp),
      cid.id ∈ s.get_all_connected_client_ids →
      (connectExecute s cid ts).1 = .error (.DuplicateClientId cid.id) ∧
      (connectExecute s cid ts).2 = s) := by
  constructor
  · intro r p q hlen hmem hid
    refine ⟨{ r with participants := r.participants ++ [p] }, ?_, ?_⟩
    · simp [Room.add_participant, not_le.mpr hlen]
    · rw [List.map_append, List.count_append]
      have h1 : 0 < (r.participants.map (fun x => x.id)).count p.id := by
        rw [List.count_pos_iff]
        exact List.mem_map.mpr ⟨q, hmem, hid.symm⟩
      have h2 : ([p].map (fun x => x.id)).count p.id = 1 := by simp
      omega
  · intro s cid ts hmem
    exact ⟨by simp [connectExecute, hmem], by simp [connectExecute, hmem]⟩

/-- Witness for C9: a room with capacity 2 holding "alice" accepts a
second participant also named "alice"; the use case rejects a duplicate
connect. -/
theorem claim9_witness :
    (∃ r2, roomOne.add_participant ⟨⟨"alice"⟩, 5⟩ = .ok r2 ∧
      2 ≤ (r2.participants.map (fun x => x.id)).count ⟨"alice"⟩) ∧
    (connectExecute sABC ⟨"alice"⟩ 9).1 = .error (.DuplicateClientId "alice") :=
  ⟨claim9_room_allows_duplicate_ids.1 roomOne ⟨⟨"alice"⟩, 5⟩ ⟨⟨"alice"⟩, 1⟩
      (by decide) (by decide) rfl,
   (claim9_room_allows_duplicate_ids.2 sABC ⟨"alice"⟩ 9 (by decide)).1⟩

/-- C10 (implicit): sending requires no room membership — a sender that is
not a connected participant still succeeds while the history is below
capacity; the message is appended and the broadcast-target list is the full
set of connected client ids. -/
theorem claim10_send_without_membership (s : RepoState) (fromC : ClientId)
    (content : MessageContent) (ts : Timestamp)
    (hmem : fromC.id ∉ s.get_all_connected_client_ids)
    (hcap : s.room.messages.length < s.room.message_capacity) :
    sendExecute s fromC content ts =
      (.ok s.get_all_connected_client_ids,
       { s with room :=
          { s.room with messages := s.room.messages ++ [⟨fromC, content, ts⟩] } }) := by
  simp only [sendExecute, RepoState.add_message, Room.add_message, not_le.mpr hcap,
    RepoState.get_all_connected_client_ids]
  simp
  intro a x hax heq
  exact hmem (heq ▸ List.mem_map.mpr ⟨(a, x), hax, rfl⟩)

/-- Witness for C10: "ghost" is not connected in the three-participant
state, yet its message is stored and broadcast to everyone connected. -/
theorem claim10_witness :
    sendExecute sABC ⟨"ghost"⟩ ⟨"hi"⟩ 9 =
      (.ok sABC.get_all_connected_client_ids,
       { sABC with room :=
          { sABC.room with messages := sABC.room.messages ++ [⟨⟨"ghost"⟩, ⟨"hi"⟩, 9⟩] } }) :=
  claim10_send_without_membership sABC ⟨"ghost"⟩ ⟨"hi"⟩ 9 (by decide) (by decide)

/-- C8: `ClientId::new` accepts exactly the non-empty strings of at most
100 UTF-8 code units and `MessageContent::new` exactly the non-empty
strings of at most 10000 UTF-8 code units; the rejections carry the
documented error values. -/
theorem claim8_value_object_validation (s : String) :
    (s = "" → ClientId.new s = .error .ClientIdEmpty) ∧
    (s ≠ "" → 100 < s.utf8ByteSize →
      ClientId.new s = .error (.ClientIdTooLong 100 s.utf8ByteSize)) ∧
    (s ≠ "" → s.utf8ByteSize ≤ 100 → ClientId.new s = .ok ⟨s⟩) ∧
    (s = "" → MessageContent.new s = .error .MessageContentEmpty) ∧
    (s ≠ "" → 10000 < s.utf8ByteSize →
      MessageContent.new s = .error (.MessageContentTooLong 10000 s.utf8ByteSize)) ∧
    (s ≠ "" → s.utf8ByteSize ≤ 10000 → MessageContent.new s = .ok ⟨s⟩) := by
  refine ⟨fun h => by simp [ClientId.new, h],
          fun h1 h2 => by simp [ClientId.new, h1, h2],
          fun h1 h2 => by simp [ClientId.new, h1, not_lt.mpr h2],
          fun h => by simp [MessageContent.new, h],
          fun h1 h2 => by simp [MessageContent.new, h1, h2],
          fun h1 h2 => by simp [MessageContent.new, h1, not_lt.mpr h2]⟩

/-- Every use-case invocation preserves the coordinator invariant. -/
theorem Inv_applyOp {s : RepoState} (h : Inv s) (op : Op) : Inv (applyOp s op) := by
  obtain ⟨h1, h2, h3, h4, h5⟩ := h
  cases op with
  | connect cid ts =>
    by_cases hdup : cid.id ∈ s.get_all_connected_client_ids
    · have hs : applyOp s (.connect cid ts) = s := by
        simp [applyOp, connectExecute, hdup]
      rw [hs]; exact ⟨h1, h2, h3, h4, h5⟩
    · cases hnew : ClientId.new cid.id with
      | error e =>
        have hs : applyOp s (.connect cid ts) = s := by
          simp [applyOp, connectExecute, hdup, RepoState.add_participant, hnew]
        rw [hs]; exact ⟨h1, h2, h3, h4, h5⟩
      | ok c =>
        have hc := ClientId.new_ok_eq hnew
        subst hc
        by_cases hcap : s.room.participants.length ≥ s.room.participant_capacity
        · have hs : applyOp s (.connect cid ts) = s := by
            simp [applyOp, connectExecute, hdup, RepoState.add_participant, hnew,
              Room.add_participant, hcap]
          rw [hs]; exact ⟨h1, h2, h3, h4, h5⟩
        · have hs : applyOp s (.connect cid ts) =
              { connected_clients := insertClient s.connected_clients cid.id ⟨ts⟩
                room := { s.room with participants :=
                  s.room.participants ++ [⟨⟨cid.id⟩, ts⟩] } } := by
            simp [applyOp, connectExecute, hdup, RepoState.add_participant, hnew,
              Room.add_participant, hcap]
          rw [hs]
          have hnotp : cid.id ∉ participantIds s := fun hm => hdup ((h4 cid.id).mpr hm)
          simp only [participantIds] at hnotp
          refine ⟨?_, h2, ?_, ?_, ?_⟩
          · simp only [List.length_append, List.length_cons, List.length_nil]
            omega
          · simp only [participantIds, List.map_append, List.map_cons, List.map_nil]
            rw [List.nodup_append]
            refine ⟨by simpa [participantIds] using h3, by simp, ?_⟩
            intro a ha hb
            simp only [List.mem_singleton] at hb
            subst hb
            exact hnotp ha
          · intro x
            simp only [RepoState.get_all_connected_client_ids, participantIds,
              List.map_append, List.map_cons, List.map_nil, List.mem_append,
              List.mem_singleton]
            rw [show (insertClient s.connected_clients cid.id ⟨ts⟩).map (fun kv => kv.1)
                  = (insertClient s.connected_clients cid.id ⟨ts⟩).map (fun kv => kv.1)
                from rfl]
            have h4x := h4 x
            simp only [RepoState.get_all_connected_client_ids, participantIds] at h4x
            constructor
            · intro hx
              rcases mem_keys_insertClient.mp hx with ⟨hx2, _⟩ | hx2
              · exact Or.inl (h4x.mp hx2)
              · exact Or.inr hx2
            · intro hx
              by_cases hxe : x = cid.id
              · exact mem_keys_insertClient.mpr (Or.inr hxe)
              · rcases hx with hx | hx
                · exact mem_keys_insertClient.mpr (Or.inl ⟨h4x.mpr hx, hxe⟩)
                · exact absurd hx hxe
          · intro k hk
            simp only [RepoState.get_all_connected_client_ids] at hk
            rcases mem_keys_insertClient.mp hk with ⟨hk2, _⟩ | hk2
            · exact h5 k hk2
            · subst hk2
              exact hnew
  | disconnect cid =>
    by_cases hmem : cid.id ∈ s.get_all_connected_client_ids
    · have hval : ClientId.new cid.id = .ok ⟨cid.id⟩ := h5 _ hmem
      have hs : applyOp s (.disconnect cid) =
          { connected_clients :=
              s.connected_clients.filter (fun kv => decide (kv.1 ≠ cid.id))
            room := { s.room with participants :=
              s.room.participants.filter (fun p => decide (p.id ≠ ⟨cid.id⟩)) } } := by
        simp [applyOp, disconnectExecute, RepoState.remove_participant, hmem,
          hval, Room.remove_participant]
      rw [hs]
      refine ⟨?_, h2, ?_, ?_, ?_⟩
      · exact le_trans (List.length_filter_le _ _) h1
      · simp only [participantIds]
        exact List.Nodup.sublist ((List.filter_sublist _).map _)
          (by simpa [participantIds] using h3)
      · intro x
        simp only [RepoState.get_all_connected_client_ids, participantIds]
        have h4x := h4 x
        simp only [RepoState.get_all_connected_client_ids, participantIds] at h4x
        rw [mem_map_fst_filter_ne, mem_pids_filter]
        exact and_congr_left fun _ => h4x
      · intro k hk
        simp only [RepoState.get_all_connected_client_ids] at hk
        exact h5 k (mem_map_fst_filter_ne.mp hk).1
    · have hs : applyOp s (.disconnect cid) = s := by
        simp [applyOp, disconnectExecute, RepoState.remove_participant, hmem]
      rw [hs]; exact ⟨h1, h2, h3, h4, h5⟩
  | send cid content ts =>
    by_cases hcap : s.room.messages.length ≥ s.room.message_capacity
    · have hs : applyOp s (.send cid content ts) = s := by
        simp [applyOp, sendExecute, RepoState.add_message, Room.add_message, hcap]
      rw [hs]; exact ⟨h1, h2, h3, h4, h5⟩
    · have hs : applyOp s (.send cid content ts) =
          { s with room := { s.room with messages :=
              s.room.messages ++ [⟨cid, content, ts⟩] } } := by
        simp [applyOp, sendExecute, RepoState.add_message, Room.add_message, hcap]
      rw [hs]
      refine ⟨h1, ?_, h3, h4, h5⟩
      simp only [List.length_append, List.length_cons, List.length_nil]
      omega

/-- The invariant is preserved along any run. -/
theorem Inv_run {s : RepoState} (h : Inv s) : ∀ ops : List Op, Inv (run s ops)
  | [] => h
  | op :: ops => Inv_run (Inv_applyOp h op) ops

/-- The initial state satisfies the invariant. -/
theorem Inv_initState (rid : RoomId) (created : Timestamp) (pcap mcap : Nat) :
    Inv (initState rid created pcap mcap) :=
  ⟨Nat.zero_le _, Nat.zero_le _, List.nodup_nil,
   fun x => by simp [initState, Room.with_capacity, participantIds,
     RepoState.get_all_connected_client_ids],
   fun k hk => by simp [initState, RepoState.get_all_connected_client_ids] at hk⟩

/-- C1: after every step of any sequence of connect/disconnect/send
operations from an empty room with fixed capacities and an empty registry,
the participant count is within capacity, the message count is within
capacity, the participant ids are pairwise distinct, and the registry key
set equals the participant id set. -/
theorem claim1_invariants_hold (rid : RoomId) (created : Timestamp)
    (pcap mcap : Nat) (ops : List Op) :
    (run (initState rid created pcap mcap) ops).room.participants.length ≤
        (run (initState rid created pcap mcap) ops).room.participant_capacity ∧
    (run (initState rid created pcap mcap) ops).room.messages.length ≤
        (run (initState rid created pcap mcap) ops).room.message_capacity ∧
    ((run (initState rid created pcap mcap) ops).room.participants.map
        (fun p => p.id)).Nodup ∧
    (∀ x, x ∈ (run (initState rid created pcap mcap) ops).get_all_connected_client_ids
        ↔ x ∈ participantIds (run (initState rid created pcap mcap) ops)) := by
  obtain ⟨h1, h2, h3, h4, _⟩ := Inv_run (Inv_initState rid created pcap mcap) ops
  refine ⟨h1, h2, ?_, h4⟩
  exact List.Nodup.of_map ClientId.id
    (by simpa [participantIds, List.map_map, Function.comp] using h3)

/-- After a successful connect, the client id is a registry key. -/
theorem connect_ok_mem {s : RepoState} {cid : ClientId} {ts : Timestamp}
    (h : (connectExecute s cid ts).1 = .ok ()) :
    cid.id ∈ (connectExecute s cid ts).2.get_all_connected_client_ids := by
  by_cases hdup : cid.id ∈ s.get_all_connected_client_ids
  · simp [connectExecute, hdup] at h
  · cases hnew : ClientId.new cid.id with
    | error e =>
      simp [connectExecute, hdup, RepoState.add_participant, hnew] at h
    | ok c =>
      by_cases hcap : s.room.participants.length ≥ s.room.participant_capacity
      · simp [connectExecute, hdup, RepoState.add_participant, hnew,
          Room.add_participant, hcap] at h
      · have hs : (connectExecute s cid ts).2 =
            { connected_clients := insertClient s.connected_clients cid.id ⟨ts⟩
              room := { s.room with participants :=
                s.room.participants ++ [⟨c, ts⟩] } } := by
          simp [connectExecute, hdup, RepoState.add_participant, hnew,
            Room.add_participant, hcap]
        rw [hs]
        simp only [RepoState.get_all_connected_client_ids]
        exact mem_keys_insertClient.mpr (Or.inr rfl)

/-- Registry-key membership survives any operation other than the
disconnect of that very id. -/
theorem mem_keys_applyOp {s : RepoState} {x : String} {op : Op}
    (hx : x ∈ s.get_all_connected_client_ids) (hop : op ≠ Op.disconnect ⟨x⟩) :
    x ∈ (applyOp s op).get_all_connected_client_ids := by
  cases op with
  | connect cid ts =>
    by_cases hdup : cid.id ∈ s.get_all_connected_client_ids
    · have hs : applyOp s (.connect cid ts) = s := by
        simp [applyOp, connectExecute, hdup]
      rw [hs]; exact hx
    · cases hnew : ClientId.new cid.id with
      | error e =>
        have hs : applyOp s (.connect cid ts) = s := by
          simp [applyOp, connectExecute, hdup, RepoState.add_participant, hnew]
        rw [hs]; exact hx
      | ok c =>
        by_cases hcap : s.room.participants.length ≥ s.room.participant_capacity
        · have hs : applyOp s (.connect cid ts) = s := by
            simp [applyOp, connectExecute, hdup, RepoState.add_participant, hnew,
              Room.add_participant, hcap]
          rw [hs]; exact hx
        · have hs : applyOp s (.connect cid ts) =
              { connected_clients := insertClient s.connected_clients cid.id ⟨ts⟩
                room := { s.room with participants :=
                  s.room.participants ++ [⟨c, ts⟩] } } := by
            simp [applyOp, connectExecute, hdup, RepoState.add_participant, hnew,
              Room.add_participant, hcap]
          rw [hs]
          simp only [RepoState.get_all_connected_client_ids]
          have hne : x ≠ cid.id := fun he => hdup (he ▸ hx)
          exact mem_keys_insertClient.mpr (Or.inl ⟨hx, hne⟩)
  | disconnect cid =>
    have hne : x ≠ cid.id := by
      intro he
      exact hop (by rw [show cid = ⟨x⟩ from ClientId.id_inj.mp (by simp [he])])
    by_cases hmem : cid.id ∈ s.get_all_connected_client_ids
    · cases hnew : ClientId.new cid.id with
      | error e =>
        have hs : applyOp s (.disconnect cid) =
            { s with connected_clients :=
                s.connected_clients.filter (fun kv => decide (kv.1 ≠ cid.id)) } := by
          simp [applyOp, disconnectExecute, RepoState.remove_participant, hmem, hnew]
        rw [hs]
        simp only [RepoState.get_all_connected_client_ids]
        exact mem_map_fst_filter_ne.mpr ⟨hx, hne⟩
      | ok c =>
        have hs : applyOp s (.disconnect cid) =
            { connected_clients :=
                s.connected_clients.filter (fun kv => decide (kv.1 ≠ cid.id))
              room := s.room.remove_participant c } := by
          simp [applyOp, disconnectExecute, RepoState.remove_participant, hmem, hnew]
        rw [hs]
        simp only [RepoState.get_all_connected_client_ids]
        exact mem_map_fst_filter_ne.mpr ⟨hx, hne⟩
    · have hs : applyOp s (.disconnect cid) = s := by
        simp [applyOp, disconnectExecute, RepoState.remove_participant, hmem]
      rw [hs]; exact hx
  | send cid content ts =>
    by_cases hcap : s.room.messages.length ≥ s.room.message_capacity
    · have hs : applyOp s (.send cid content ts) = s := by
        simp [applyOp, sendExecute, RepoState.add_message, Room.add_message, hcap]
      rw [hs]; exact hx
    · have hs : applyOp s (.send cid content ts) =
          { s with room := { s.room with messages :=
              s.room.messages ++ [⟨cid, content, ts⟩] } } := by
        simp [applyOp, sendExecute, RepoState.add_message, Room.add_message, hcap]
      rw [hs]; exact hx

/-- Registry-key membership survives a whole run that never disconnects
that id. -/
theorem mem_keys_run {x : String} :
    ∀ (ops : List Op) (s : RepoState), x ∈ s.get_all_connected_client_ids →
      (∀ op ∈ ops, op ≠ Op.disconnect ⟨x⟩) →
      x ∈ (run s ops).get_all_connected_client_ids
  | [], _, hx, _ => hx
  | op :: ops, s, hx, hops =>
    mem_keys_run ops (applyOp s op)
      (mem_keys_applyOp hx (hops op (List.mem_cons_self op ops)))
      fun o ho => hops o (List.mem_cons_of_mem op ho)

/-- C2: once a client id is connected, any further connect with the same id
— with no intervening disconnect of that id — is rejected with
`DuplicateClientId`, and the rejected attempt changes nothing. -/
theorem claim2_duplicate_connect_rejected (s : RepoState) (cid : ClientId)
    (ts ts2 : Timestamp) (ops : List Op)
    (h1 : (connectExecute s cid ts).1 = .ok ())
    (h2 : ∀ op ∈ ops, op ≠ Op.disconnect cid) :
    (connectExecute (run (connectExecute s cid ts).2 ops) cid ts2).1
        = .error (.DuplicateClientId cid.id) ∧
    (connectExecute (run (connectExecute s cid ts).2 ops) cid ts2).2
        = run (connectExecute s cid ts).2 ops := by
  have hmem : cid.id ∈ (run (connectExecute s cid ts).2 ops).get_all_connected_client_ids :=
    mem_keys_run ops _ (connect_ok_mem h1) h2
  have key : ∀ t : RepoState, cid.id ∈ t.get_all_connected_client_ids →
      connectExecute t cid ts2 = (.error (.DuplicateClientId cid.id), t) := by
    intro t ht
    simp [connectExecute, ht]
  have hkey := key _ hmem
  exact ⟨by rw [hkey], by rw [hkey]⟩

/-- Witness for C2: after connecting "alice" (and then "bob"), a second
connect of "alice" is rejected and the state is untouched. -/
theorem claim2_witness :
    (connectExecute (run (connectExecute wInit ⟨"alice"⟩ 1).2 [.connect ⟨"bob"⟩ 2])
        ⟨"alice"⟩ 3).1 = .error (.DuplicateClientId "alice") ∧
    (connectExecute (run (connectExecute wInit ⟨"alice"⟩ 1).2 [.connect ⟨"bob"⟩ 2])
        ⟨"alice"⟩ 3).2 = run (connectExecute wInit ⟨"alice"⟩ 1).2 [.connect ⟨"bob"⟩ 2] :=
  claim2_duplicate_connect_rejected wInit ⟨"alice"⟩ 1 3 [.connect ⟨"bob"⟩ 2]
    rfl (by decide)

/-- C5: disconnecting a currently connected id succeeds, removes the
participant from both the room and the registry, and returns exactly the
post-removal registry key list (which excludes the id); disconnecting a
never-connected id yields the repository's not-found error and leaves the
state unchanged. -/
theorem claim5_disconnect (s : RepoState) (cid : ClientId) :
    (cid.id ∈ s.get_all_connected_client_ids → ClientId.new cid.id = .ok cid →
      (disconnectExecute s cid).1 =
          .ok ((disconnectExecute s cid).2.get_all_connected_client_ids) ∧
      cid.id ∉ (disconnectExecute s cid).2.get_all_connected_client_ids ∧
      (disconnectExecute s cid).2.connected_clients
          = s.connected_clients.filter (fun kv => decide (kv.1 ≠ cid.id)) ∧
      (disconnectExecute s cid).2.room.participants
          = s.room.participants.filter (fun p => decide (p.id ≠ cid))) ∧
    (cid.id ∉ s.get_all_connected_client_ids →
      (s.remove_participant cid.id).1 = .error (.ClientInfoNotFound cid.id) ∧
      disconnectExecute s cid = (.error (), s)) := by
  constructor
  · intro hmem hval
    have hs : (disconnectExecute s cid).2 =
        { connected_clients :=
            s.connected_clients.filter (fun kv => decide (kv.1 ≠ cid.id))
          room := { s.room with participants :=
            s.room.participants.filter (fun p => decide (p.id ≠ cid)) } } := by
      simp [disconnectExecute, RepoState.remove_participant, hmem, hval,
        Room.remove_participant]
    have hr : (disconnectExecute s cid).1 =
        .ok (s.get_all_connected_client_ids.filter (fun i => decide (i ≠ cid.id))) := by
      simp [disconnectExecute, RepoState.remove_participant, hmem, hval]
    refine ⟨?_, ?_, by rw [hs], by rw [hs]⟩
    · rw [hr, hs]
      simp only [RepoState.get_all_connected_client_ids]
      rw [map_fst_filter_ne]
    · rw [hs]
      simp only [RepoState.get_all_connected_client_ids]
      intro hmem2
      exact (mem_map_fst_filter_ne.mp hmem2).2 rfl
  · intro hmem
    exact ⟨by simp [RepoState.remove_participant, hmem],
           by simp [disconnectExecute, RepoState.remove_participant, hmem]⟩

/-- Witness for C5: disconnecting "alice" among alice/bob/charlie returns
exactly bob and charlie and removes alice everywhere; disconnecting the
never-connected "ghost" reports not-found and changes nothing. -/
theorem claim5_witness :
    ((disconnectExecute sABC ⟨"alice"⟩).1 =
        .ok ((disconnectExecute sABC ⟨"alice"⟩).2.get_all_connected_client_ids) ∧
      "alice" ∉ (disconnectExecute sABC ⟨"alice"⟩).2.get_all_connected_client_ids ∧
      (disconnectExecute sABC ⟨"alice"⟩).2.connected_clients
          = sABC.connected_clients.filter (fun kv => decide (kv.1 ≠ "alice")) ∧
      (disconnectExecute sABC ⟨"alice"⟩).2.room.participants
          = sABC.room.participants.filter (fun p => decide (p.id ≠ ⟨"alice"⟩))) ∧
    ((sABC.remove_participant "ghost").1 = .error (.ClientInfoNotFound "ghost") ∧
      disconnectExecute sABC ⟨"ghost"⟩ = (.error (), sABC)) :=
  ⟨(claim5_disconnect sABC ⟨"alice"⟩).1 (by decide) rfl,
   (claim5_disconnect sABC ⟨"ghost"⟩).2 (by decide)⟩

/-- C6: a successful send returns as broadcast targets exactly the connected
client ids other than the sender; in particular the sender is never among
them. -/
theorem claim6_send_targets_exclude_sender (s : RepoState) (fromC : ClientId)
    (content : MessageContent) (ts : Timestamp) (targets : List String)
    (h : (sendExecute s fromC content ts).1 = .ok targets) :
    targets = s.get_all_connected_client_ids.filter (fun i => decide (i ≠ fromC.id)) ∧
    (∀ x, x ∈ targets ↔ (x ∈ s.get_all_connected_client_ids ∧ x ≠ fromC.id)) ∧
    fromC.id ∉ targets := by
  by_cases hcap : s.room.messages.length ≥ s.room.message_capacity
  · simp [sendExecute, RepoState.add_message, Room.add_message, hcap] at h
  · have ht : targets
        = s.get_all_connected_client_ids.filter (fun i => decide (i ≠ fromC.id)) := by
      have h2 := h
      simp only [sendExecute, RepoState.add_message, Room.add_message,
        if_neg hcap] at h2
      simpa [RepoState.get_all_connected_client_ids] using h2.symm
    refine ⟨ht, ?_, ?_⟩
    · intro x
      rw [ht]
      simp [List.mem_filter]
    · rw [ht]
      simp [List.mem_filter]

/-- Witness for C6: when "alice" sends among alice/bob/charlie, the targets
are exactly bob and charlie. -/
theorem claim6_witness :
    (["bob", "charlie"] : List String)
        = sABC.get_all_connected_client_ids.filter (fun i => decide (i ≠ "alice")) ∧
    (∀ x, x ∈ (["bob", "charlie"] : List String) ↔
        (x ∈ sABC.get_all_connected_client_ids ∧ x ≠ "alice")) ∧
    "alice" ∉ (["bob", "charlie"] : List String) :=
  claim6_send_targets_exclude_sender sABC ⟨"alice"⟩ ⟨"hi"⟩ 9 ["bob", "charlie"] rfl

/-- C7: `build_participant_list` returns one display entry per current
participant (id and connected_at), sorted by client_id ascending, whatever
the connection order was. -/
theorem claim7_participant_list_sorted (s : RepoState) :
    List.Perm (build_participant_list s)
      (s.room.participants.map
        (fun p => (⟨p.id.id, p.connected_at⟩ : ParticipantInfo))) ∧
    List.Pairwise infoLe (build_participant_list s) :=
  ⟨List.perm_insertionSort infoLe _, List.sorted_insertionSort infoLe _⟩

/-- Witness for C8: the accompanying concrete checks — empty and valid
ids and contents, and a 101-byte id. -/
theorem claim8_witness :
    ClientId.new "" = .error .ClientIdEmpty ∧
    ClientId.new longA = .error (.ClientIdTooLong 100 101) ∧
    ClientId.new "alice" = .ok ⟨"alice"⟩ ∧
    MessageContent.new "" = .error .MessageContentEmpty ∧
    MessageContent.new "hello" = .ok ⟨"hello"⟩ :=
  ⟨(claim8_value_object_validation "").1 rfl,
   (claim8_value_object_validation longA).2.1 (by decide) (by decide),
   (claim8_value_object_validation "alice").2.2.1 (by decide) (by decide),
   (claim8_value_object_validation "").2.2.2.1 rfl,
   (claim8_value_object_validation "hello").2.2.2.2.2 (by decide) (by decide)⟩

end Chat
